import Mathlib

/-!
# Trill/general-custom-address (render.cpp)

A shallow embedding of the Bela example `examples/Trill/general-custom-address/render.cpp`
and proofs about its report scheduling (`render`), its start-up (`setup`) and its
polling loop (`loop`).

Conventions of the embedding:

* `unsigned int` values are natural numbers below `2 ^ 32`; `int` values are integers
  between `INT_MIN` and `INT_MAX`.  Signed overflow and an out-of-range conversion of a
  floating value to `unsigned int` are undefined in C++; the embedding returns `none` there.
* finite `float` values are dyadic numbers `m * 2 ^ e` (`CFloat`); a `float` product is the
  exact product rounded to binary32 (`f32Round`).
* calls of external functions (the Trill library, the Bela task API, `usleep`) are recorded
  as events; the text written by `rt_printf` is a `String`.
-/

namespace TrillCustomAddress

/-! ## Machine integers -/

/-- Largest value of `int` (32 bit). -/
def INT_MAX : ℤ := 2 ^ 31 - 1

/-- Number of values of `unsigned int` (32 bit). -/
def UINT_RANGE : ℕ := 2 ^ 32

/-- Conversion `int → unsigned int` (the usual arithmetic conversion applied to `readCount`
in `readCount >= printIntervalSamples`): reduction modulo `2 ^ 32`. -/
def intToUnsigned (x : ℤ) : ℕ := (x % (UINT_RANGE : ℤ)).toNat

/-- Conversion `unsigned int → int` as performed when an `unsigned int` is printed
with `%d`. -/
def unsignedToInt (u : ℕ) : ℤ := if (u : ℤ) ≤ INT_MAX then (u : ℤ) else (u : ℤ) - (UINT_RANGE : ℤ)

/-- The statement `readCount++` on the `int` counter; `none` is signed overflow. -/
def incrInt (x : ℤ) : Option ℤ := if x + 1 ≤ INT_MAX then some (x + 1) else none

/-! ## Floating-point values -/

/-- A finite `float` (or `double`) value `m * 2 ^ e`.  Every finite binary32 value has this
form with `|m| < 2 ^ 24` and `-149 ≤ e`. -/
structure CFloat where
  m : ℤ
  e : ℤ
  deriving DecidableEq, Repr

/-- The rational number a floating value stands for. -/
def CFloat.toRat (x : CFloat) : ℚ := (x.m : ℚ) * (2 : ℚ) ^ x.e

/-- Number of binary digits of `n`, computed with `fuel` halvings at most. -/
def bitLengthAux : ℕ → ℕ → ℕ
  | 0, _ => 0
  | fuel + 1, n => if n = 0 then 0 else bitLengthAux fuel (n / 2) + 1

/-- Number of binary digits of `n` (0 for 0). -/
def bitLength (n : ℕ) : ℕ := bitLengthAux n n

/-- Integer quotient `n / d` rounded to the nearest natural number, ties to even. -/
def divRoundHalfEven (n d : ℕ) : ℕ :=
  let q := n / d
  let r := n % d
  if 2 * r < d then q
  else if d < 2 * r then q + 1
  else if q % 2 = 0 then q else q + 1

/-- Rounding of the exact value `m * 2 ^ e` to binary32, to nearest and ties to even: at most
24 significant bits are kept and no bit below `2 ^ (-149)`; `none` when the result is not
finite. -/
def f32Round (m e : ℤ) : Option CFloat :=
  let n := m.natAbs
  let drop : ℤ := max ((bitLength n : ℤ) - 24) (-149 - e)
  let n1 : ℕ := if 0 < drop then divRoundHalfEven n (2 ^ drop.toNat) else n
  let e1 : ℤ := if 0 < drop then e + drop else e
  if 128 < (bitLength n1 : ℤ) + e1 then none
  else some ⟨if m < 0 then -(n1 : ℤ) else (n1 : ℤ), e1⟩

/-- The `float` product `x * y`. -/
def f32Mul (x y : CFloat) : Option CFloat := f32Round (x.m * y.m) (x.e + y.e)

/-- The integral part of `m * 2 ^ e`, rounded toward zero. -/
def truncate (x : CFloat) : ℤ :=
  if 0 ≤ x.e then x.m * 2 ^ x.e.toNat
  else if x.m < 0 then -((x.m.natAbs / 2 ^ (-x.e).toNat : ℕ) : ℤ)
  else ((x.m.natAbs / 2 ^ (-x.e).toNat : ℕ) : ℤ)

/-- Conversion of a floating value to `unsigned int`: the fractional part is discarded; the
conversion is undefined (`none`) when the integral part is not an `unsigned int`. -/
def floatToUnsigned (x : CFloat) : Option ℕ :=
  let t := truncate x
  if 0 ≤ t ∧ t < (UINT_RANGE : ℤ) then some t.toNat else none

/-! ## Text produced by `rt_printf` -/

/-- Decimal digits of `n`, left-padded with zeros to three characters. -/
def pad3 (n : ℕ) : String :=
  String.mk [Nat.digitChar (n / 100 % 10), Nat.digitChar (n / 10 % 10), Nat.digitChar (n % 10)]

/-- The conversion `%d`. -/
def printf_d (x : ℤ) : String :=
  if x < 0 then "-" ++ Nat.repr x.natAbs else Nat.repr x.natAbs

/-- The value `|x| * 1000` rounded to the nearest natural number, ties to even. -/
def thousandths (x : CFloat) : ℕ :=
  if 0 ≤ x.e then x.m.natAbs * 1000 * 2 ^ x.e.toNat
  else divRoundHalfEven (x.m.natAbs * 1000) (2 ^ (-x.e).toNat)

/-- The conversion `%1.3f` of a finite value: sign, integer part, a point and exactly three
decimals, the value being rounded to the nearest thousandth (ties to even).  The minimal
field width 1 never pads. -/
def printf_1_3f (x : CFloat) : String :=
  let k : ℕ := thousandths x
  (if x.m < 0 then "-" else "") ++ Nat.repr (k / 1000) ++ "." ++ pad3 (k % 1000)

/-! ## The Trill sensor object -/

/-- Modelled from the spec: the scan modes of the sensor (`Trill::Mode`, declared in
`libraries/Trill/Trill.h`, which is not part of the sources); the spec lists
`AUTO | CENTROID | RAW`. -/
inductive Mode where
  | AUTO
  | CENTROID
  | RAW
  deriving DecidableEq, Repr

/-- Device types, as in the address table of the header comment of `render.cpp`. -/
inductive Device where
  | BAR
  | SQUARE
  | CRAFT
  | RING
  | HEX
  | FLEX
  deriving DecidableEq, Repr

/-- Modelled from the spec: the decoded state of `touchSensor` as seen through the
accessors used by `render` (`getMode`, `numberOfTouches`, `touchLocation`, `is2D`,
`touchHorizontalLocation`, `getNumChannels`, `rawData`); the class `Trill` itself is not
part of the sources.  Counts are `unsigned int`, readings are `float`. -/
structure Trill where
  getMode : Mode
  numberOfTouches : ℕ
  touchLocation : ℕ → CFloat
  is2D : Bool
  touchHorizontalLocation : ℕ → CFloat
  getNumChannels : ℕ
  rawData : ℕ → CFloat

/-- The loop `for(unsigned int i = 0; i < touchSensor.numberOfTouches(); i++)` of `render`,
from index `i` on; `fuel` bounds the number of iterations. -/
def printTouches (ts : Trill) : ℕ → ℕ → String
  | 0, _ => ""
  | fuel + 1, i =>
    if i < ts.numberOfTouches then
      (printf_1_3f (ts.touchLocation i) ++ " ")
        ++ (if ts.is2D then printf_1_3f (ts.touchHorizontalLocation i) ++ " " else "")
        ++ printTouches ts fuel (i + 1)
    else ""

/-- The loop `for(unsigned int i = 0; i < touchSensor.getNumChannels(); i++)` of `render`,
from index `i` on; `fuel` bounds the number of iterations. -/
def printChannels (ts : Trill) : ℕ → ℕ → String
  | 0, _ => ""
  | fuel + 1, i =>
    if i < ts.getNumChannels then
      (printf_1_3f (ts.rawData i) ++ " ") ++ printChannels ts fuel (i + 1)
    else ""

/-- The text printed by the body of `if(readCount >= printIntervalSamples)` in `render`
(lines 92-105): one report.  Each loop gets as many iterations as its bound allows. -/
def printReport (ts : Trill) : String :=
  (if Mode.CENTROID = ts.getMode then
      ("Touches: " ++ printf_d (unsignedToInt ts.numberOfTouches) ++ ":")
        ++ printTouches ts ts.numberOfTouches 0
    else
      printChannels ts ts.getNumChannels 0)
    ++ "\n"

/-! ## `render` -/

/-- What one iteration of the frame loop of `render` leaves behind: the value of
`readCount` after the iteration and the report printed during it, if any. -/
structure FrameRecord where
  readCount : ℤ
  report : Option String
  deriving DecidableEq, Repr

/-- One iteration of the body of `for(unsigned int n = 0; n < context->audioFrames; n++)`:
the test `readCount >= printIntervalSamples` (in `unsigned int`), the reset and the report,
then `readCount++`. -/
def frameBody (ts : Trill) (printIntervalSamples : ℕ) (readCount : ℤ) : Option FrameRecord :=
  if printIntervalSamples ≤ intToUnsigned readCount then
    (incrInt 0).map fun c => ⟨c, some (printReport ts)⟩
  else
    (incrInt readCount).map fun c => ⟨c, none⟩

/-- The frame loop of `render` with `frames` iterations left: the final `readCount` and the
record of every iteration, in order. -/
def renderLoop (ts : Trill) (printIntervalSamples : ℕ) : ℕ → ℤ → Option (ℤ × List FrameRecord)
  | 0, readCount => some (readCount, [])
  | frames + 1, readCount =>
    match frameBody ts printIntervalSamples readCount with
    | none => none
    | some r =>
      match renderLoop ts printIntervalSamples frames r.readCount with
      | none => none
      | some (c, rs) => some (c, r :: rs)

/-- One call `render(context, userData)` with `context->audioFrames = audioFrames`, the static
`readCount` being passed in and out. -/
def render (ts : Trill) (printIntervalSamples : ℕ) (audioFrames : ℕ) (readCount : ℤ) :
    Option (ℤ × List FrameRecord) :=
  renderLoop ts printIntervalSamples audioFrames readCount

/-- Successive calls of `render`, one per block size in the list, on the same counter. -/
def renderBlocks (ts : Trill) (printIntervalSamples : ℕ) : List ℕ → ℤ → Option (ℤ × List FrameRecord)
  | [], readCount => some (readCount, [])
  | b :: bs, readCount =>
    match render ts printIntervalSamples b readCount with
    | none => none
    | some (c, rs) =>
      match renderBlocks ts printIntervalSamples bs c with
      | none => none
      | some (c2, rs2) => some (c2, rs ++ rs2)

/-- Number of report lines in a record of frames. -/
def reportCount (rs : List FrameRecord) : ℕ := (rs.filter fun r => r.report.isSome).length

/-- The text written by the frames of a record. -/
def printedText (rs : List FrameRecord) : String :=
  String.join (rs.filterMap fun r => r.report)

/-- A two-dimensional device in CENTROID mode with one touch at (0.25, 0.75). -/
def exampleSquare : Trill where
  getMode := Mode.CENTROID
  numberOfTouches := 1
  touchLocation := fun _ => ⟨1, -2⟩
  is2D := true
  touchHorizontalLocation := fun _ => ⟨3, -2⟩
  getNumChannels := 30
  rawData := fun _ => ⟨0, 0⟩

/-- A device in RAW mode with the three channels 0, 0.5 and 1. -/
def exampleRaw : Trill where
  getMode := Mode.RAW
  numberOfTouches := 0
  touchLocation := fun _ => ⟨0, 0⟩
  is2D := false
  touchHorizontalLocation := fun _ => ⟨0, 0⟩
  getNumChannels := 3
  rawData := fun i => ⟨i, -1⟩

/-! ## Closed forms used in the statements -/

/-- The natural number that a string of decimal digits denotes, most significant digit
first (`'0'` is character 48). -/
def decimalValue (cs : List Char) : ℕ :=
  cs.foldl (fun a c => 10 * a + (c.toNat - 48)) 0


/-- Value of `readCount` once `x` frames have been processed from `readCount = 0` with
threshold `t ≥ 1`. -/
def counterAfter (t x : ℕ) : ℕ := if x = 0 then 0 else (x - 1) % t + 1

/-- The report printed at the frame with global index `j` (counted from the frame at which
`readCount` was 0). -/
def reportAt (ts : Trill) (t j : ℕ) : Option String :=
  if 0 < j ∧ t ∣ j then some (printReport ts) else none

/-- The records of the `k` frames with global indices `x, x + 1, ..., x + k - 1`. -/
def expectedRecords (ts : Trill) (t x k : ℕ) : List FrameRecord :=
  (List.range' x k).map fun j => ⟨(counterAfter t (j + 1) : ℕ), reportAt ts t j⟩

/-- The per-call algorithm of the specification (ReportScheduler, steps 1 and 2), written
from its words: advance the counter by the block's frame count; then, if the counter has
reached the threshold, reset it to 0 and emit exactly one report line.  The result is the
counter and the number of report lines of the call. -/
def referenceCall (c t n : ℕ) : ℕ × ℕ :=
  let c1 := c + n
  if t ≤ c1 then (0, 1) else (c1, 0)

/-! ## Globals, `setup` and `loop` -/

/-- The initial value of `float printInterval = 0.1`: the binary32 value nearest to one
tenth, `13421773 * 2 ^ (-27)`. -/
def printInterval : CFloat := ⟨13421773, -27⟩

/-- The global `unsigned int gTaskSleepTime = 12000` (microseconds). -/
def gTaskSleepTime : ℕ := 12000

/-- The globals of `render.cpp` that `setup` reads or writes. -/
structure Globals where
  printInterval : CFloat
  printIntervalSamples : ℕ
  deriving DecidableEq, Repr

/-- The globals as initialised: `printInterval = 0.1`, `printIntervalSamples = 0`. -/
def initialGlobals : Globals := ⟨printInterval, 0⟩

/-- Calls of external functions made by `setup` and `loop`, in program order. -/
inductive Call where
  | fprintf_stderr (text : String)
  | Bela_createAuxiliaryTask (callback : String) (priority : ℕ) (name : String)
  | Bela_scheduleAuxiliaryTask (name : String)
  | readI2C (result : ℤ)
  | usleep (microseconds : ℕ)
  deriving DecidableEq, Repr

/-- The right-hand side of `printIntervalSamples = context->audioSampleRate*(printInterval)`:
a `float` product converted to `unsigned int`. -/
def intervalSamples (audioSampleRate interval : CFloat) : Option ℕ :=
  (f32Mul audioSampleRate interval).bind floatToUnsigned

/-- The function `setup`.  `trillSetup` is `touchSensor.setup` (bus, device, mode, address),
`audioSampleRate` is `context->audioSampleRate`.  The result is the returned `bool`, the
globals and the external calls made. -/
def setup (trillSetup : ℕ → Device → Mode → ℕ → ℤ) (audioSampleRate : CFloat) (g : Globals) :
    Option (Bool × Globals × List Call) :=
  if trillSetup 1 Device.BAR Mode.AUTO 0x21 ≠ 0 then
    some (false, g,
      [Call.fprintf_stderr "Unable to initialise Trill device. Is the address correct?\n"])
  else
    match intervalSamples audioSampleRate g.printInterval with
    | none => none
    | some samples =>
      some (true, { g with printIntervalSamples := samples },
        [Call.Bela_createAuxiliaryTask "loop" 50 "I2C-read",
         Call.Bela_scheduleAuxiliaryTask "I2C-read"])

/-- A call of `loop` seen through the values that `Bela_stopRequested()` returns to it. -/
structure LoopRun where
  calls : List Call
  returned : Bool
  deriving DecidableEq, Repr

/-- The function `loop`.  The list holds the successive results of `Bela_stopRequested()`,
`readResult i` is what the `i`-th call of `touchSensor.readI2C()` returns, `i` counts the
iterations made so far.  When the observations are used up without a `true`, `loop` has not
returned (`returned = false`) and `calls` is what it has done so far. -/
def loop (readResult : ℕ → ℤ) : List Bool → ℕ → LoopRun
  | [], _ => ⟨[], false⟩
  | true :: _, _ => ⟨[], true⟩
  | false :: rest, i =>
    let run := loop readResult rest (i + 1)
    ⟨Call.readI2C (readResult i) :: Call.usleep gTaskSleepTime :: run.calls, run.returned⟩

/-- A one-dimensional bar in CENTROID mode with two touches, used in the examples. -/
def exampleBar : Trill where
  getMode := Mode.CENTROID
  numberOfTouches := 2
  touchLocation := fun i => if i = 0 then ⟨1, -2⟩ else ⟨1, -1⟩
  is2D := false
  touchHorizontalLocation := fun _ => ⟨0, 0⟩
  getNumChannels := 26
  rawData := fun _ => ⟨0, 0⟩

/-! ## Arithmetic of the counter -/

theorem intToUnsigned_natCast (n : ℕ) (h : n < 2 ^ 32) : intToUnsigned (n : ℤ) = n := by
  unfold intToUnsigned UINT_RANGE
  omega

theorem incrInt_natCast (n : ℕ) (h : n + 1 ≤ 2 ^ 31 - 1) :
    incrInt (n : ℤ) = some ((n + 1 : ℕ) : ℤ) := by
  unfold incrInt INT_MAX
  rw [if_pos (by omega)]
  simp

theorem succ_mod_cases (t y : ℕ) (ht : 0 < t) :
    (y % t + 1 = t ∧ (y + 1) % t = 0) ∨ (y % t + 1 < t ∧ (y + 1) % t = y % t + 1) := by
  have hlt : y % t < t := Nat.mod_lt y ht
  have hmod : (y + 1) % t = (y % t + 1) % t := (Nat.mod_add_mod y t 1).symm
  rcases Nat.lt_or_ge (y % t + 1) t with h | h
  · right
    exact ⟨h, by rw [hmod, Nat.mod_eq_of_lt h]⟩
  · left
    have heq : y % t + 1 = t := by omega
    exact ⟨heq, by rw [hmod, heq, Nat.mod_self]⟩

theorem counterAfter_le (t x : ℕ) (ht : 0 < t) : counterAfter t x ≤ t := by
  unfold counterAfter
  split
  · omega
  · have := Nat.mod_lt (x - 1) ht
    omega

theorem counterAfter_pos (t x : ℕ) (hx : 0 < x) : 0 < counterAfter t x := by
  unfold counterAfter
  rw [if_neg (by omega)]
  omega

theorem counterAfter_of_le (t c : ℕ) (hc : c ≤ t) : counterAfter t c = c := by
  unfold counterAfter
  split
  · omega
  · rw [Nat.mod_eq_of_lt (by omega)]
    omega

/-- One frame, started after `x` frames: the counter moves on to `counterAfter t (x + 1)` and a
report is printed exactly when `x` is a positive multiple of `t`. -/
theorem frameBody_counterAfter (ts : Trill) (t x : ℕ) (ht : 0 < t) (hmax : t ≤ 2 ^ 31 - 1) :
    frameBody ts t (counterAfter t x : ℕ)
      = some ⟨(counterAfter t (x + 1) : ℕ), reportAt ts t x⟩ := by
  have hle := counterAfter_le t x ht
  unfold frameBody reportAt
  rw [intToUnsigned_natCast _ (by omega)]
  rcases Nat.eq_zero_or_pos x with hx | hx
  · subst hx
    have h1 : counterAfter t 1 = 1 := by simp [counterAfter]
    have h0 : counterAfter t 0 = 0 := by simp [counterAfter]
    rw [h1, h0, if_neg (by omega), if_neg (by omega)]
    simp [incrInt, INT_MAX]
  · obtain ⟨y, rfl⟩ : ∃ y, x = y + 1 := ⟨x - 1, by omega⟩
    have hc : counterAfter t (y + 1) = y % t + 1 := by simp [counterAfter]
    have hc2 : counterAfter t (y + 1 + 1) = (y + 1) % t + 1 := by simp [counterAfter]
    rw [hc, hc2]
    rcases succ_mod_cases t y ht with ⟨h1, h2⟩ | ⟨h1, h2⟩
    · have hdvd : t ∣ y + 1 := Nat.dvd_of_mod_eq_zero h2
      rw [if_pos (by omega), if_pos ⟨by omega, hdvd⟩, h2]
      simp [incrInt, INT_MAX]
    · have hndvd : ¬ t ∣ y + 1 := fun h => by
        have := Nat.mod_eq_zero_of_dvd h
        omega
      rw [if_neg (by omega), if_neg (fun h => hndvd h.2), h2, incrInt_natCast _ (by omega)]
      simp

/-- The frame loop in closed form: `k` frames started after `x` frames. -/
theorem renderLoop_counterAfter (ts : Trill) (t : ℕ) (ht : 0 < t) (hmax : t ≤ 2 ^ 31 - 1) :
    ∀ k x : ℕ, renderLoop ts t k (counterAfter t x : ℕ)
      = some (((counterAfter t (x + k) : ℕ) : ℤ), expectedRecords ts t x k) := by
  intro k
  induction k with
  | zero => intro x; simp [renderLoop, expectedRecords]
  | succ k ih =>
    intro x
    rw [renderLoop, frameBody_counterAfter ts t x ht hmax]
    simp only []
    rw [ih (x + 1)]
    simp [expectedRecords, List.range'_succ, Nat.add_assoc, Nat.add_comm 1 k]

/-- Successive blocks in closed form: only the total number of frames matters. -/
theorem renderBlocks_counterAfter (ts : Trill) (t : ℕ) (ht : 0 < t) (hmax : t ≤ 2 ^ 31 - 1) :
    ∀ (bs : List ℕ) (x : ℕ), renderBlocks ts t bs (counterAfter t x : ℕ)
      = some (((counterAfter t (x + bs.sum) : ℕ) : ℤ), expectedRecords ts t x bs.sum) := by
  intro bs
  induction bs with
  | nil => intro x; simp [renderBlocks, expectedRecords]
  | cons b bs ih =>
    intro x
    rw [renderBlocks, render, renderLoop_counterAfter ts t ht hmax b x]
    simp only []
    rw [ih (x + b)]
    simp only [expectedRecords, List.sum_cons, Nat.add_assoc]
    rw [← List.map_append, List.range'_append_1, Nat.add_comm bs.sum b]

/-- Number of reports among the frames `x, ..., x + k - 1`. -/
theorem reportCount_expectedRecords (ts : Trill) (t : ℕ) :
    ∀ k x : ℕ, reportCount (expectedRecords ts t x k) = (x + k - 1) / t - (x - 1) / t := by
  intro k
  induction k with
  | zero => intro x; simp [reportCount, expectedRecords]
  | succ k ih =>
    intro x
    have ih1 := ih (x + 1)
    simp only [reportCount, expectedRecords, List.range'_succ, List.map_cons] at ih1 ⊢
    have hmono : x / t ≤ (x + k) / t := Nat.div_le_div_right (Nat.le_add_right x k)
    have hstep : x / t = (x - 1) / t + (if 0 < x ∧ t ∣ x then 1 else 0) := by
      rcases Nat.eq_zero_or_pos x with hx | hx
      · subst hx; simp
      · obtain ⟨y, rfl⟩ : ∃ y, x = y + 1 := ⟨x - 1, by omega⟩
        rw [Nat.succ_div]
        simp
    by_cases hr : 0 < x ∧ t ∣ x
    · rw [if_pos hr] at hstep
      rw [List.filter_cons_of_pos (by simp [reportAt, hr]), List.length_cons, ih1]
      have e1 : x + 1 + k - 1 = x + k := by omega
      have e2 : x + (k + 1) - 1 = x + k := by omega
      have e3 : x + 1 - 1 = x := by omega
      rw [e1, e2, e3]
      omega
    · rw [if_neg hr] at hstep
      rw [List.filter_cons_of_neg (by simp [reportAt, hr]), ih1]
      have e1 : x + 1 + k - 1 = x + k := by omega
      have e2 : x + (k + 1) - 1 = x + k := by omega
      have e3 : x + 1 - 1 = x := by omega
      rw [e1, e2, e3]
      omega

/-- Blocks processed from `readCount = 0`. -/
theorem renderBlocks_from_zero (ts : Trill) (t : ℕ) (ht : 0 < t) (hmax : t ≤ 2 ^ 31 - 1)
    (bs : List ℕ) :
    renderBlocks ts t bs 0
      = some (((counterAfter t bs.sum : ℕ) : ℤ), expectedRecords ts t 0 bs.sum) := by
  have h := renderBlocks_counterAfter ts t ht hmax bs 0
  simpa [counterAfter] using h

theorem expectedRecords_length (ts : Trill) (t x k : ℕ) :
    (expectedRecords ts t x k).length = k := by
  simp [expectedRecords]

theorem reportAt_isSome (ts : Trill) (t j : ℕ) :
    (reportAt ts t j).isSome = true ↔ (0 < j ∧ t ∣ j) := by
  unfold reportAt
  split <;> simp_all

theorem frameBody_zero_threshold (ts : Trill) (c : ℤ) :
    frameBody ts 0 c = some ⟨1, some (printReport ts)⟩ := by
  simp [frameBody, incrInt, INT_MAX]

theorem renderLoop_zero_threshold (ts : Trill) :
    ∀ (n : ℕ) (c : ℤ), renderLoop ts 0 n c
      = some (if n = 0 then c else 1, List.replicate n ⟨1, some (printReport ts)⟩) := by
  intro n
  induction n with
  | zero => intro c; simp [renderLoop]
  | succ n ih =>
    intro c
    rw [renderLoop, frameBody_zero_threshold]
    simp only []
    rw [ih 1]
    by_cases hn : n = 0 <;> simp [hn, List.replicate_succ]

theorem sum_replicate_one (n : ℕ) : (List.replicate n 1).sum = n := by
  induction n with
  | zero => rfl
  | succ n ih => rw [List.replicate_succ, List.sum_cons, ih, Nat.add_comm]

/-- A counter above the threshold behaves as a counter equal to it: the first frame resets. -/
theorem renderLoop_above_threshold (ts : Trill) (t k c : ℕ) (hct : t ≤ c)
    (hc : c ≤ 2 ^ 31 - 1) :
    renderLoop ts t (k + 1) (c : ℕ) = renderLoop ts t (k + 1) (t : ℕ) := by
  have h1 : frameBody ts t (c : ℕ) = frameBody ts t (t : ℕ) := by
    unfold frameBody
    rw [intToUnsigned_natCast c (by omega), intToUnsigned_natCast t (by omega), if_pos hct,
      if_pos (Nat.le_refl t)]
  rw [renderLoop, renderLoop, h1]

/-- One call of `render` from a counter `c ≤ t`. -/
theorem render_le_threshold (ts : Trill) (c t n : ℕ) (h1 : 1 ≤ t) (hmax : t ≤ 2 ^ 31 - 1)
    (hc : c ≤ t) :
    ∃ rs, render ts t n c = some (((if n = 0 then c else (c + n - 1) % t + 1 : ℕ) : ℤ), rs)
      ∧ reportCount rs = (c + n - 1) / t
      ∧ (c + n < t → (((if n = 0 then c else (c + n - 1) % t + 1 : ℕ)), reportCount rs)
            = referenceCall c t n) := by
  have hrun := renderLoop_counterAfter ts t h1 hmax n c
  rw [counterAfter_of_le t c hc] at hrun
  have hcnt : counterAfter t (c + n) = if n = 0 then c else (c + n - 1) % t + 1 := by
    by_cases hn : n = 0
    · subst hn
      simpa using counterAfter_of_le t c hc
    · simp [counterAfter, hn]
  have hrep : reportCount (expectedRecords ts t c n) = (c + n - 1) / t := by
    rw [reportCount_expectedRecords, Nat.div_eq_of_lt (show c - 1 < t by omega)]
    simp
  refine ⟨expectedRecords ts t c n, ?_, hrep, ?_⟩
  · rw [render, hrun, hcnt]
  · intro hlt
    rw [hrep, ← hcnt, counterAfter_of_le t (c + n) (by omega),
      Nat.div_eq_of_lt (show c + n - 1 < t by omega)]
    simp only [referenceCall]
    rw [if_neg (by omega)]

/-! ## The claims about `render` -/

/-- C1, as the code has it: with the threshold 4410 that `setup` computes for the sample rate
44100 and the print interval 0.1, and `readCount` starting at 0, the first 4410 calls of
`render` on one frame each emit no report and leave `readCount` at 4410; the report is emitted
by the 4411th call, after which exactly one report has been emitted and `readCount` is 1. -/
theorem first_report_in_call_4411 (ts : Trill) :
    intervalSamples ⟨44100, 0⟩ printInterval = some 4410 ∧
    (∃ rs, renderBlocks ts 4410 (List.replicate 4410 1) 0 = some (4410, rs)
      ∧ reportCount rs = 0) ∧
    (∃ rs, renderBlocks ts 4410 (List.replicate 4411 1) 0 = some (1, rs)
      ∧ reportCount rs = 1 ∧ (rs.getLast?).map FrameRecord.report = some (some (printReport ts))) := by
  have hs0 : (List.replicate 4410 1).sum = 4410 := sum_replicate_one 4410
  have hs1 : (List.replicate 4411 1).sum = 4411 := sum_replicate_one 4411
  have hc0 : counterAfter 4410 4410 = 4410 := by decide
  have hc1 : counterAfter 4410 4411 = 1 := by decide
  refine ⟨by decide, ⟨expectedRecords ts 4410 0 4410, ?_, ?_⟩,
    ⟨expectedRecords ts 4410 0 4411, ?_, ?_, ?_⟩⟩
  · rw [renderBlocks_from_zero ts 4410 (by norm_num) (by norm_num), hs0, hc0]
    rfl
  · rw [reportCount_expectedRecords]
  · rw [renderBlocks_from_zero ts 4410 (by norm_num) (by norm_num), hs1, hc1]
    rfl
  · rw [reportCount_expectedRecords]
  · rw [expectedRecords, List.range'_1_concat, List.map_append, List.getLast?_append]
    simp [reportAt]

/-- C1, witness: the statement at the one-dimensional bar with two touches. -/
theorem first_report_in_call_4411_witness :
    ∃ rs, renderBlocks exampleBar 4410 (List.replicate 4411 1) 0 = some (1, rs)
      ∧ reportCount rs = 1
      ∧ (rs.getLast?).map FrameRecord.report = some (some "Touches: 2:0.250 0.500 \n") :=
  (first_report_in_call_4411 exampleBar).2.2

/-- C1, counterexample: after exactly 4410 one-frame calls from `readCount = 0` with threshold
4410 the state is not "one report emitted, counter 0". -/
theorem no_report_after_4410_calls :
    ¬ ∃ rs, renderBlocks exampleBar 4410 (List.replicate 4410 1) 0 = some (0, rs)
      ∧ reportCount rs = 1 := by
  rintro ⟨rs, h, -⟩
  have hs0 : (List.replicate 4410 1).sum = 4410 := sum_replicate_one 4410
  have hc0 : counterAfter 4410 4410 = 4410 := by decide
  rw [renderBlocks_from_zero exampleBar 4410 (by norm_num) (by norm_num), hs0, hc0] at h
  have h2 := congrArg (fun o => o.map Prod.fst) h
  simp at h2

/-- C2, counterexample: from counter 0 with threshold 1, a block of one frame emits no report
and leaves the counter at 1, whereas the per-call reference emits one report and leaves 0. -/
theorem render_differs_from_referenceCall :
    (render exampleBar 1 1 0).map (fun p => (p.1, reportCount p.2)) = some (1, 0) ∧
    referenceCall 0 1 1 = (0, 1) ∧
    (render exampleBar 1 1 0).map (fun p => (p.1, reportCount p.2))
      ≠ some (((referenceCall 0 1 1).1 : ℤ), (referenceCall 0 1 1).2) := by
  decide

/-- C2, as the code has it: `render` tests the counter once per frame, before counting the
frame.  For a threshold `1 ≤ t ≤ INT_MAX`, a counter `0 ≤ c ≤ INT_MAX` and a block of `n`
frames, one call emits `(min c t + n - 1) / t` report lines (possibly several) and leaves the
counter at `(min c t + n - 1) % t + 1` when `n ≥ 1` (never 0) and at `c` when `n = 0`; it
coincides with the per-call reference algorithm when `c + n < t`. -/
theorem render_per_frame (ts : Trill) (c t n : ℕ) (h1 : 1 ≤ t) (hmax : t ≤ 2 ^ 31 - 1)
    (hc : c ≤ 2 ^ 31 - 1) :
    ∃ rs, render ts t n c
        = some (((if n = 0 then c else (min c t + n - 1) % t + 1 : ℕ) : ℤ), rs)
      ∧ reportCount rs = (min c t + n - 1) / t
      ∧ (c + n < t → (((if n = 0 then c else (min c t + n - 1) % t + 1 : ℕ)), reportCount rs)
            = referenceCall c t n) := by
  by_cases hct : c ≤ t
  · rw [Nat.min_eq_left hct]
    exact render_le_threshold ts c t n h1 hmax hct
  · rw [Nat.min_eq_right (by omega)]
    rcases Nat.eq_zero_or_pos n with hn | hn
    · subst hn
      refine ⟨[], by simp [render, renderLoop], ?_, fun h => absurd h (by omega)⟩
      rw [Nat.add_zero, Nat.div_eq_of_lt (by omega)]
      rfl
    · obtain ⟨k, rfl⟩ : ∃ k, n = k + 1 := ⟨n - 1, by omega⟩
      obtain ⟨rs, hrun, hcount, -⟩ := render_le_threshold ts t t (k + 1) h1 hmax (Nat.le_refl t)
      refine ⟨rs, ?_, hcount, fun h => absurd h (by omega)⟩
      rw [render, renderLoop_above_threshold ts t k c (by omega) hc, ← render, hrun]
      simp

/-- C2, witness: threshold 2, counter 0, a block of 5 frames gives 2 reports and counter 1. -/
theorem render_per_frame_witness :
    ∃ rs, render exampleBar 2 5 ((0 : ℕ) : ℤ)
        = some (((if 5 = 0 then 0 else (min 0 2 + 5 - 1) % 2 + 1 : ℕ) : ℤ), rs)
      ∧ reportCount rs = (min 0 2 + 5 - 1) / 2
      ∧ (0 + 5 < 2 → (((if 5 = 0 then 0 else (min 0 2 + 5 - 1) % 2 + 1 : ℕ)), reportCount rs)
            = referenceCall 0 2 5) :=
  render_per_frame exampleBar 0 2 5 (by decide) (by decide) (by decide)

/-- C6, counterexample: with threshold 0 a block of 2 frames emits 2 report lines, not 1. -/
theorem zero_threshold_two_frames :
    (render exampleBar 0 2 0).map (fun p => reportCount p.2) = some 2 ∧
    (render exampleBar 0 2 0).map (fun p => reportCount p.2) ≠ some 1 := by
  decide

/-- C6, as the code has it: with `printIntervalSamples = 0`, `render` reports at every frame:
for every counter value and every block of `n` frames one call emits exactly `n` report lines,
one per frame (so exactly one only for a block of one frame), and leaves the counter at 1 when
`n ≥ 1`. -/
theorem zero_threshold_reports_every_frame (ts : Trill) (c : ℤ) (n : ℕ) :
    ∃ rs, render ts 0 n c = some (if n = 0 then c else 1, rs)
      ∧ reportCount rs = n
      ∧ rs.length = n
      ∧ ∀ r ∈ rs, r.report = some (printReport ts) := by
  refine ⟨_, renderLoop_zero_threshold ts n c, ?_, ?_, ?_⟩
  · simp [reportCount, List.filter_replicate]
  · simp
  · intro r hr
    rw [List.eq_of_mem_replicate hr]

/-- C6, witness: counter 7 and a block of 3 frames. -/
theorem zero_threshold_reports_every_frame_witness :
    ∃ rs, render exampleBar 0 3 7 = some (1, rs) ∧ reportCount rs = 3 ∧ rs.length = 3
      ∧ ∀ r ∈ rs, r.report = some (printReport exampleBar) :=
  zero_threshold_reports_every_frame exampleBar 7 3

/-- C10: for a threshold `1 ≤ t ≤ INT_MAX` and any list of block sizes of total `N`, the calls
of `render` on these blocks from `readCount = 0` all succeed (no signed overflow) and give the
same counter and the same records as one block of `N` frames; frame `j` (0-based) carries a
report exactly when `j = k * t` for some `k ≥ 1`; the number of reports is `(N - 1) / t`
(0 when `N = 0`); after every frame the counter lies between 1 and `t`. -/
theorem reports_depend_on_total_only (ts : Trill) (t : ℕ) (bs : List ℕ) (h1 : 1 ≤ t)
    (hmax : t ≤ 2 ^ 31 - 1) :
    ∃ (c : ℤ) (rs : List FrameRecord),
      renderBlocks ts t bs 0 = some (c, rs)
      ∧ render ts t bs.sum 0 = some (c, rs)
      ∧ rs.length = bs.sum
      ∧ (∀ (j : ℕ) (hj : j < rs.length),
          (rs.get ⟨j, hj⟩).report.isSome = true ↔ ∃ k, 1 ≤ k ∧ j = k * t)
      ∧ reportCount rs = (bs.sum - 1) / t
      ∧ (∀ r ∈ rs, 1 ≤ r.readCount ∧ r.readCount ≤ t)
      ∧ 0 ≤ c ∧ c ≤ t := by
  refine ⟨_, _, renderBlocks_from_zero ts t h1 hmax bs, ?_, expectedRecords_length ts t 0 _,
    ?_, ?_, ?_, ?_, ?_⟩
  · have h := renderLoop_counterAfter ts t h1 hmax bs.sum 0
    simpa [render, counterAfter] using h
  · intro j hj
    simp only [expectedRecords, List.get_eq_getElem, List.getElem_map, List.getElem_range',
      Nat.zero_add, Nat.one_mul]
    rw [reportAt_isSome]
    constructor
    · rintro ⟨hpos, k, hk⟩
      refine ⟨k, ?_, by rw [hk, Nat.mul_comm]⟩
      rcases Nat.eq_zero_or_pos k with h0 | h0
      · subst h0; omega
      · exact h0
    · rintro ⟨k, hk, rfl⟩
      exact ⟨Nat.mul_pos hk h1, Dvd.intro_left k rfl⟩
  · rw [reportCount_expectedRecords]
    simp
  · intro r hr
    simp only [expectedRecords, List.mem_map] at hr
    obtain ⟨j, -, rfl⟩ := hr
    have hle := counterAfter_le t (j + 1) h1
    have hpos := counterAfter_pos t (j + 1) (by omega)
    simp only []
    omega
  · omega
  · have hle := counterAfter_le t bs.sum h1
    omega

/-- C10, witness: threshold 3 and the blocks 2, 5, 1. -/
theorem reports_depend_on_total_only_witness :
    ∃ (c : ℤ) (rs : List FrameRecord),
      renderBlocks exampleBar 3 [2, 5, 1] 0 = some (c, rs)
      ∧ render exampleBar 3 [2, 5, 1].sum 0 = some (c, rs)
      ∧ rs.length = [2, 5, 1].sum
      ∧ (∀ (j : ℕ) (hj : j < rs.length),
          (rs.get ⟨j, hj⟩).report.isSome = true ↔ ∃ k, 1 ≤ k ∧ j = k * 3)
      ∧ reportCount rs = ([2, 5, 1].sum - 1) / 3
      ∧ (∀ r ∈ rs, 1 ≤ r.readCount ∧ r.readCount ≤ (3 : ℕ))
      ∧ 0 ≤ c ∧ c ≤ (3 : ℕ) :=
  reports_depend_on_total_only exampleBar 3 [2, 5, 1] (by decide) (by decide)

/-! ## Floating values and the threshold -/

theorem two_zpow_pos (e : ℤ) : (0 : ℚ) < (2 : ℚ) ^ e := zpow_pos (by norm_num) e

theorem toRat_nonneg_iff (x : CFloat) : 0 ≤ x.toRat ↔ 0 ≤ x.m := by
  unfold CFloat.toRat
  rw [mul_nonneg_iff_of_pos_right (two_zpow_pos x.e)]
  exact Int.cast_nonneg

/-- For a non-negative value, `truncate` is the floor of the value. -/
theorem truncate_eq_floor (x : CFloat) (hm : 0 ≤ x.m) : truncate x = ⌊x.toRat⌋ := by
  unfold truncate CFloat.toRat
  by_cases he : 0 ≤ x.e
  · rw [if_pos he]
    obtain ⟨k, hk⟩ := Int.eq_ofNat_of_zero_le he
    rw [hk, Int.toNat_natCast, zpow_natCast]
    have : ((x.m : ℚ) * 2 ^ k) = ((x.m * 2 ^ k : ℤ) : ℚ) := by push_cast; ring
    rw [this, Int.floor_intCast]
  · rw [if_neg he, if_neg (by omega)]
    obtain ⟨k, hk⟩ := Int.eq_ofNat_of_zero_le (show 0 ≤ -x.e by omega)
    obtain ⟨n, hn⟩ := Int.eq_ofNat_of_zero_le hm
    have hxe : x.e = -(k : ℤ) := by omega
    rw [hk, Int.toNat_natCast, hxe, hn, Int.natAbs_ofNat, zpow_neg, zpow_natCast]
    have : ((n : ℤ) : ℚ) * ((2 : ℚ) ^ k)⁻¹ = ((n : ℕ) : ℚ) / ((2 ^ k : ℕ) : ℚ) := by
      push_cast
      rw [div_eq_mul_inv]
    rw [this, Rat.floor_natCast_div_natCast]
    exact Int.natCast_div _ _

theorem f32Round_m_nonneg (m e : ℤ) (p : CFloat) (hm : 0 ≤ m) (h : f32Round m e = some p) :
    0 ≤ p.m := by
  unfold f32Round at h
  simp only [Option.ite_none_left_eq_some, Option.some.injEq] at h
  obtain ⟨-, rfl⟩ := h
  dsimp only
  rw [if_neg (by omega)]
  exact Int.natCast_nonneg _

/-- The conversion keeps the integral part of a non-negative value below `2 ^ 32`. -/
theorem floatToUnsigned_eq_floor (p : CFloat) (hm : 0 ≤ p.m) (hlt : p.toRat < 2 ^ 32) :
    floatToUnsigned p = some ⌊p.toRat⌋₊ := by
  have hnn : 0 ≤ p.toRat := (toRat_nonneg_iff p).2 hm
  unfold floatToUnsigned
  simp only []
  rw [truncate_eq_floor p hm]
  have h0 : 0 ≤ ⌊p.toRat⌋ := Int.floor_nonneg.2 hnn
  have h1 : ⌊p.toRat⌋ < ((UINT_RANGE : ℕ) : ℤ) := by
    rw [Int.floor_lt]
    unfold UINT_RANGE
    push_cast
    exact hlt
  rw [if_pos ⟨h0, h1⟩, Int.floor_toNat]

/-! ### The rounding of `f32Round` -/

theorem lt_two_pow_bitLengthAux :
    ∀ fuel n : ℕ, n ≤ fuel → n < 2 ^ bitLengthAux fuel n := by
  intro fuel
  induction fuel with
  | zero => intro n h; simp [bitLengthAux]; omega
  | succ fuel ih =>
    intro n h
    rw [bitLengthAux]
    split
    · omega
    · have := ih (n / 2) (by omega)
      rw [pow_succ]
      omega

theorem lt_two_pow_bitLength (n : ℕ) : n < 2 ^ bitLength n :=
  lt_two_pow_bitLengthAux n n (Nat.le_refl n)

/-- The rounded quotient is within half a unit of the exact quotient. -/
theorem divRoundHalfEven_near (n d : ℕ) (hd : 0 < d) :
    |(2 * ((divRoundHalfEven n d * d : ℕ) : ℤ)) - 2 * (n : ℤ)| ≤ (d : ℤ) := by
  have hlt := Nat.mod_lt n hd
  have hn : n = n / d * d + n % d := by
    rw [Nat.mul_comm]
    exact (Nat.div_add_mod n d).symm
  unfold divRoundHalfEven
  simp only []
  generalize n / d = q at hn ⊢
  generalize n % d = r at hn hlt ⊢
  have hnz : (n : ℤ) = (q : ℤ) * d + r := by exact_mod_cast hn
  rw [abs_le]
  split
  · push_cast; omega
  · split
    · rw [Nat.add_mul]; push_cast; omega
    · split
      · push_cast; omega
      · rw [Nat.add_mul]; push_cast; omega

theorem divRoundHalfEven_le (n d : ℕ) : divRoundHalfEven n d ≤ n / d + 1 := by
  unfold divRoundHalfEven
  simp only []
  split
  · omega
  · split
    · omega
    · split <;> omega

theorem toRat_abs (m : ℤ) (a : ℕ) (e1 : ℤ) :
    |(⟨if m < 0 then -(a : ℤ) else (a : ℤ), e1⟩ : CFloat).toRat| = (a : ℚ) * 2 ^ e1 := by
  unfold CFloat.toRat
  dsimp only
  rw [abs_mul, abs_of_pos (two_zpow_pos e1)]
  split
  · push_cast
    rw [abs_neg, abs_of_nonneg (Nat.cast_nonneg a)]
  · push_cast
    rw [abs_of_nonneg (Nat.cast_nonneg a)]

theorem toRat_sub_abs (m : ℤ) (a : ℕ) (e e1 : ℤ) :
    |(⟨if m < 0 then -(a : ℤ) else (a : ℤ), e1⟩ : CFloat).toRat - (m : ℚ) * 2 ^ e|
      = |(a : ℚ) * 2 ^ e1 - (m.natAbs : ℚ) * 2 ^ e| := by
  unfold CFloat.toRat
  dsimp only
  have habs : ((m.natAbs : ℕ) : ℚ) = |(m : ℚ)| := by
    rw [Nat.cast_natAbs, Int.cast_abs]
  rw [habs]
  by_cases hm : m < 0
  · have hq : (m : ℚ) < 0 := by exact_mod_cast hm
    rw [if_pos hm, abs_of_neg hq, ← abs_neg]
    push_cast
    congr 1
    ring
  · have hq : (0 : ℚ) ≤ (m : ℚ) := by exact_mod_cast (not_lt.1 hm)
    rw [if_neg hm, abs_of_nonneg hq]
    push_cast
    rfl

theorem finite_of_bitLength (a : ℕ) (e1 : ℤ) (h : ¬ 128 < (bitLength a : ℤ) + e1) :
    (a : ℚ) * 2 ^ e1 < 2 ^ (128 : ℤ) := by
  have hlt : (a : ℚ) < 2 ^ (bitLength a : ℤ) := by
    rw [zpow_natCast]
    exact_mod_cast lt_two_pow_bitLength a
  calc (a : ℚ) * 2 ^ e1 < 2 ^ (bitLength a : ℤ) * 2 ^ e1 :=
        mul_lt_mul_of_pos_right hlt (two_zpow_pos e1)
    _ = 2 ^ ((bitLength a : ℤ) + e1) := (zpow_add₀ (by norm_num) _ _).symm
    _ ≤ 2 ^ (128 : ℤ) := zpow_le_zpow_right₀ (by norm_num) (by omega)

/-- A result of `f32Round` has at most 24 significant bits (`|m| ≤ 2 ^ 24`) above
`2 ^ (-149)`, is below `2 ^ 128` in absolute value, and lies within half a unit in the last
place of the exact value. -/
theorem f32Round_nearest (m e : ℤ) (p : CFloat) (h : f32Round m e = some p) :
    p.m.natAbs ≤ 2 ^ 24 ∧ -149 ≤ p.e ∧ |p.toRat| < 2 ^ (128 : ℤ)
      ∧ |p.toRat - (m : ℚ) * 2 ^ e| ≤ 2 ^ (p.e - 1) := by
  unfold f32Round at h
  simp only [Option.ite_none_left_eq_some, Option.some.injEq] at h
  obtain ⟨hov, rfl⟩ := h
  have hbl := lt_two_pow_bitLength m.natAbs
  have hnat : ∀ a : ℕ, (if m < 0 then -(a : ℤ) else (a : ℤ)).natAbs = a := by
    intro a
    split <;> simp
  by_cases hdrop : 0 < max ((bitLength m.natAbs : ℤ) - 24) (-149 - e)
  · rw [if_pos hdrop, if_pos hdrop] at hov
    simp only [if_pos hdrop]
    obtain ⟨k, hk⟩ := Int.eq_ofNat_of_zero_le hdrop.le
    rw [hk] at hov hdrop ⊢
    rw [Int.toNat_natCast] at hov ⊢
    have h24 : (bitLength m.natAbs : ℤ) - 24 ≤ k := hk ▸ le_max_left _ _
    have h149 : -149 - e ≤ (k : ℤ) := hk ▸ le_max_right _ _
    have hpow : (0 : ℕ) < 2 ^ k := Nat.two_pow_pos k
    refine ⟨?_, by omega, ?_, ?_⟩
    · dsimp only
      rw [hnat]
      have hle := divRoundHalfEven_le m.natAbs (2 ^ k)
      have hb : bitLength m.natAbs ≤ k + 24 := by omega
      have h1 : m.natAbs < 2 ^ k * 2 ^ 24 := by
        rw [← pow_add]
        exact lt_of_lt_of_le hbl (Nat.pow_le_pow_right (by norm_num) hb)
      have h2 : m.natAbs / 2 ^ k < 2 ^ 24 := by
        rw [Nat.div_lt_iff_lt_mul hpow, Nat.mul_comm]
        exact h1
      omega
    · rw [toRat_abs]
      exact finite_of_bitLength _ _ hov
    · rw [toRat_sub_abs]
      have hnear := divRoundHalfEven_near m.natAbs (2 ^ k) hpow
      generalize divRoundHalfEven m.natAbs (2 ^ k) = a at hnear ⊢
      generalize m.natAbs = n at hnear ⊢
      have hq : |2 * ((a : ℚ) * 2 ^ k) - 2 * (n : ℚ)| ≤ 2 ^ k := by
        have := (Int.cast_le (R := ℚ)).2 hnear
        rw [Int.cast_abs] at this
        push_cast at this
        exact this
      have he1 : (2 : ℚ) ^ (e + (k : ℤ)) = 2 ^ e * 2 ^ k := by
        rw [zpow_add₀ (by norm_num), zpow_natCast]
      have he2 : (2 : ℚ) ^ (e + (k : ℤ) - 1) = 2 ^ e * 2 ^ k / 2 := by
        rw [zpow_sub₀ (by norm_num), he1, zpow_one]
      rw [he1, he2]
      have hfac : (a : ℚ) * (2 ^ e * 2 ^ k) - (n : ℚ) * 2 ^ e
          = (2 * ((a : ℚ) * 2 ^ k) - 2 * (n : ℚ)) * (2 ^ e / 2) := by ring
      rw [hfac, abs_mul, abs_of_pos (div_pos (two_zpow_pos e) (by norm_num))]
      calc |2 * ((a : ℚ) * 2 ^ k) - 2 * (n : ℚ)| * (2 ^ e / 2)
          ≤ 2 ^ k * (2 ^ e / 2) :=
            mul_le_mul_of_nonneg_right hq (div_pos (two_zpow_pos e) (by norm_num)).le
        _ = 2 ^ e * 2 ^ k / 2 := by ring
  · rw [if_neg hdrop, if_neg hdrop] at hov
    simp only [if_neg hdrop]
    have h24 : (bitLength m.natAbs : ℤ) - 24 ≤ 0 := le_trans (le_max_left _ _) (not_lt.1 hdrop)
    have h149 : -149 - e ≤ 0 := le_trans (le_max_right _ _) (not_lt.1 hdrop)
    refine ⟨?_, by omega, ?_, ?_⟩
    · dsimp only
      rw [hnat]
      have hb : bitLength m.natAbs ≤ 24 := by omega
      exact le_of_lt (lt_of_lt_of_le hbl (Nat.pow_le_pow_right (by norm_num) hb))
    · rw [toRat_abs]
      exact finite_of_bitLength _ _ hov
    · rw [toRat_sub_abs]
      rw [sub_self, abs_zero]
      exact (two_zpow_pos _).le

/-- The `float` product is the exact product up to half a unit in the last place. -/
theorem f32Mul_nearest (x y p : CFloat) (h : f32Mul x y = some p) :
    p.m.natAbs ≤ 2 ^ 24 ∧ -149 ≤ p.e ∧ |p.toRat| < 2 ^ (128 : ℤ)
      ∧ |p.toRat - x.toRat * y.toRat| ≤ 2 ^ (p.e - 1) := by
  have hr := f32Round_nearest _ _ p h
  have hprod : x.toRat * y.toRat = ((x.m * y.m : ℤ) : ℚ) * 2 ^ (x.e + y.e) := by
    unfold CFloat.toRat
    rw [zpow_add₀ (by norm_num)]
    push_cast
    ring
  rw [hprod]
  exact hr

/-- The initial value of `printInterval` is within half a unit in the last place (`2 ^ (-28)`)
of one tenth. -/
theorem printInterval_nearest : |printInterval.toRat - 1 / 10| ≤ 2 ^ (-28 : ℤ) := by
  unfold printInterval CFloat.toRat
  rw [abs_le]
  norm_num

/-! ## The claims about `setup` -/

/-- C7, counterexample: for the sample rate 44100 and the interval 0.1875 (both exact in
binary32, as is their product 8268.75) `setup` stores 8268, while the product rounded to the
nearest integer is 8269. -/
theorem intervalSamples_is_not_rounded :
    intervalSamples ⟨44100, 0⟩ ⟨3, -4⟩ = some 8268 ∧
    (⟨44100, 0⟩ : CFloat).toRat * (⟨3, -4⟩ : CFloat).toRat = 8268 + 3 / 4 ∧
    round ((⟨44100, 0⟩ : CFloat).toRat * (⟨3, -4⟩ : CFloat).toRat) = 8269 ∧
    intervalSamples ⟨44100, 0⟩ ⟨3, -4⟩
      ≠ some (round ((⟨44100, 0⟩ : CFloat).toRat * (⟨3, -4⟩ : CFloat).toRat)).toNat := by
  have hprod : (⟨44100, 0⟩ : CFloat).toRat * (⟨3, -4⟩ : CFloat).toRat = 8268 + 3 / 4 := by
    simp only [CFloat.toRat]
    norm_num
  have hround : round ((⟨44100, 0⟩ : CFloat).toRat * (⟨3, -4⟩ : CFloat).toRat) = 8269 := by
    rw [hprod, round_eq, Int.floor_eq_iff]
    norm_num
  refine ⟨by decide, hprod, hround, ?_⟩
  rw [hround]
  decide

/-- C7, as the code has it: for a non-negative sample rate and print interval whose `float`
product `p` (the exact product up to half a unit in the last place) is finite and below
`2 ^ 32`, the threshold that `setup` stores is the integral part of `p` (the product truncated
toward zero, not rounded to the nearest integer); it is 4410 for the sample rate 44100 and the
interval 0.1. -/
theorem intervalSamples_truncates (sr pi p : CFloat) (hsr : 0 ≤ sr.toRat) (hpi : 0 ≤ pi.toRat)
    (hp : f32Mul sr pi = some p) (hlt : p.toRat < 2 ^ 32) :
    intervalSamples sr pi = some ⌊p.toRat⌋₊
      ∧ ((⌊p.toRat⌋₊ : ℕ) : ℚ) ≤ p.toRat ∧ p.toRat < ((⌊p.toRat⌋₊ : ℕ) : ℚ) + 1
      ∧ |p.toRat - sr.toRat * pi.toRat| ≤ 2 ^ (p.e - 1)
      ∧ intervalSamples ⟨44100, 0⟩ printInterval = some 4410 := by
  have hm : 0 ≤ sr.m * pi.m :=
    Int.mul_nonneg ((toRat_nonneg_iff sr).1 hsr) ((toRat_nonneg_iff pi).1 hpi)
  have hpm : 0 ≤ p.m := f32Round_m_nonneg _ _ p hm hp
  have hnn : 0 ≤ p.toRat := (toRat_nonneg_iff p).2 hpm
  refine ⟨?_, Nat.floor_le hnn, Nat.lt_floor_add_one _, (f32Mul_nearest sr pi p hp).2.2.2,
    by decide⟩
  unfold intervalSamples
  rw [hp]
  exact floatToUnsigned_eq_floor p hpm hlt

/-- C7, witness: the sample rate 44100 and the interval 0.1875. -/
theorem intervalSamples_truncates_witness :
    intervalSamples ⟨44100, 0⟩ ⟨3, -4⟩ = some ⌊(⟨132300, -4⟩ : CFloat).toRat⌋₊
      ∧ ((⌊(⟨132300, -4⟩ : CFloat).toRat⌋₊ : ℕ) : ℚ) ≤ (⟨132300, -4⟩ : CFloat).toRat
      ∧ (⟨132300, -4⟩ : CFloat).toRat < ((⌊(⟨132300, -4⟩ : CFloat).toRat⌋₊ : ℕ) : ℚ) + 1
      ∧ |(⟨132300, -4⟩ : CFloat).toRat - (⟨44100, 0⟩ : CFloat).toRat * (⟨3, -4⟩ : CFloat).toRat|
          ≤ 2 ^ ((⟨132300, -4⟩ : CFloat).e - 1)
      ∧ intervalSamples ⟨44100, 0⟩ printInterval = some 4410 :=
  intervalSamples_truncates ⟨44100, 0⟩ ⟨3, -4⟩ ⟨132300, -4⟩
    (by simp only [CFloat.toRat]; norm_num) (by simp only [CFloat.toRat]; norm_num)
    (by decide) (by simp only [CFloat.toRat]; norm_num)

theorem div_pred_close (N t : ℕ) : |((N - 1) / t : ℕ) - ((N / t : ℕ) : ℤ)| ≤ 1 := by
  rcases Nat.eq_zero_or_pos N with h | h
  · subst h; simp
  · obtain ⟨M, rfl⟩ : ∃ M, N = M + 1 := ⟨N - 1, by omega⟩
    rw [Nat.add_sub_cancel, Nat.succ_div]
    split <;> simp

/-- C3, counterexample: sample rate 3, interval 0.5 s (threshold 1, the product 1.5
truncated), duration 4 s, hence 12 frames: `render` emits 11 reports, while
`floor (4 / 0.5) = 8`. -/
theorem report_count_is_not_duration_over_interval :
    intervalSamples ⟨3, 0⟩ ⟨1, -1⟩ = some 1 ∧
    (12 : ℚ) = 4 * (⟨3, 0⟩ : CFloat).toRat ∧
    (render exampleBar 1 12 0).map (fun p => reportCount p.2) = some 11 ∧
    ⌊(4 : ℚ) / (⟨1, -1⟩ : CFloat).toRat⌋ = 8 ∧
    ¬ |((11 : ℕ) : ℤ) - ⌊(4 : ℚ) / (⟨1, -1⟩ : CFloat).toRat⌋| ≤ 1 := by
  have hfloor : ⌊(4 : ℚ) / (⟨1, -1⟩ : CFloat).toRat⌋ = 8 := by
    simp only [CFloat.toRat]
    norm_num
  refine ⟨by decide, ?_, by decide, hfloor, ?_⟩
  · simp only [CFloat.toRat]
    norm_num
  · rw [hfloor]
    decide

/-- C3, as the code has it: let `t` be the threshold that `setup` computes from a sample rate
`sr > 0` and an interval `> 0`, with `1 ≤ t ≤ INT_MAX`.  Over the `floor (T * sr)` frames of a
duration `T ≥ 0`, in any blocks and from `readCount = 0`, the number of reports differs by at
most 1 from `floor (T / (t / sr))`: the interval realised is `t / sr` seconds.  It differs by at
most 1 from `floor (T / interval)` when `sr * interval` is the whole number `t`. -/
theorem report_count_per_duration (ts : Trill) (sr pi : CFloat) (T : ℚ) (t : ℕ) (bs : List ℕ)
    (hsr : 0 < sr.toRat) (_hpi : 0 < pi.toRat) (hT : 0 ≤ T)
    (_hset : intervalSamples sr pi = some t) (h1 : 1 ≤ t) (hmax : t ≤ 2 ^ 31 - 1)
    (hbs : bs.sum = ⌊T * sr.toRat⌋₊) :
    ∃ c rs, renderBlocks ts t bs 0 = some (c, rs)
      ∧ |(reportCount rs : ℤ) - ⌊T / ((t : ℚ) / sr.toRat)⌋| ≤ 1
      ∧ ((t : ℚ) = sr.toRat * pi.toRat → |(reportCount rs : ℤ) - ⌊T / pi.toRat⌋| ≤ 1) := by
  have hfl : ⌊T / ((t : ℚ) / sr.toRat)⌋ = ((bs.sum / t : ℕ) : ℤ) := by
    have hx : T / ((t : ℚ) / sr.toRat) = T * sr.toRat / (t : ℚ) := by
      field_simp
    have hnn : 0 ≤ T * sr.toRat / (t : ℚ) :=
      div_nonneg (mul_nonneg hT hsr.le) (Nat.cast_nonneg t)
    rw [hx, ← Int.natCast_floor_eq_floor hnn, Nat.floor_div_nat, hbs]
  have hcount : reportCount (expectedRecords ts t 0 bs.sum) = (bs.sum - 1) / t := by
    rw [reportCount_expectedRecords]
    simp
  refine ⟨_, _, renderBlocks_from_zero ts t h1 hmax bs, ?_, ?_⟩
  · rw [hfl, hcount]
    exact div_pred_close bs.sum t
  · intro hwhole
    have hpi : pi.toRat = (t : ℚ) / sr.toRat := by
      rw [hwhole]
      field_simp
    rw [hpi, hfl, hcount]
    exact div_pred_close bs.sum t

/-- C3, witness: sample rate 44100, interval 0.1, one second in blocks of one frame. -/
theorem report_count_per_duration_witness :
    ∃ c rs, renderBlocks exampleBar 4410 (List.replicate 44100 1) 0 = some (c, rs)
      ∧ |(reportCount rs : ℤ) - ⌊(1 : ℚ) / (((4410 : ℕ) : ℚ) / (⟨44100, 0⟩ : CFloat).toRat)⌋| ≤ 1
      ∧ (((4410 : ℕ) : ℚ) = (⟨44100, 0⟩ : CFloat).toRat * printInterval.toRat →
          |(reportCount rs : ℤ) - ⌊(1 : ℚ) / printInterval.toRat⌋| ≤ 1) :=
  report_count_per_duration exampleBar ⟨44100, 0⟩ printInterval 1 4410 (List.replicate 44100 1)
    (by simp only [CFloat.toRat]; norm_num) (by simp only [CFloat.toRat, printInterval]; norm_num)
    (by norm_num) (by decide) (by norm_num) (by norm_num)
    (by rw [sum_replicate_one]; simp only [CFloat.toRat]; norm_num)

/-- C4: `setup` returns `false` exactly when `touchSensor.setup(1, Trill::BAR, Trill::AUTO, 0x21)`
returns a non-zero code; it then leaves the globals as they were (`printIntervalSamples` keeps
its value, 0 initially) and neither creates nor schedules a task.  When the sensor setup
returns 0 (and the threshold conversion is defined), `setup` creates the task `loop` once,
schedules it once, stores the threshold and returns `true`. -/
theorem setup_fails_iff_sensor_setup_fails (trillSetup : ℕ → Device → Mode → ℕ → ℤ)
    (sr : CFloat) (g : Globals) :
    (trillSetup 1 Device.BAR Mode.AUTO 0x21 ≠ 0 →
      ∃ calls, setup trillSetup sr g = some (false, g, calls)
        ∧ (∀ cb pr nm, Call.Bela_createAuxiliaryTask cb pr nm ∉ calls)
        ∧ (∀ nm, Call.Bela_scheduleAuxiliaryTask nm ∉ calls))
    ∧ (trillSetup 1 Device.BAR Mode.AUTO 0x21 ≠ 0 →
      (setup trillSetup sr initialGlobals).map (fun r => r.2.1.printIntervalSamples) = some 0)
    ∧ (∀ r, setup trillSetup sr g = some r →
        (r.1 = false ↔ trillSetup 1 Device.BAR Mode.AUTO 0x21 ≠ 0))
    ∧ (trillSetup 1 Device.BAR Mode.AUTO 0x21 = 0 →
      ∀ t, intervalSamples sr g.printInterval = some t →
        ∃ calls, setup trillSetup sr g = some (true, { g with printIntervalSamples := t }, calls)
          ∧ calls = [Call.Bela_createAuxiliaryTask "loop" 50 "I2C-read",
                     Call.Bela_scheduleAuxiliaryTask "I2C-read"]
          ∧ calls.count (Call.Bela_createAuxiliaryTask "loop" 50 "I2C-read") = 1
          ∧ calls.count (Call.Bela_scheduleAuxiliaryTask "I2C-read") = 1) := by
  refine ⟨?_, ?_, ?_, ?_⟩
  · intro h
    refine ⟨_, by rw [setup, if_pos h], ?_, ?_⟩ <;> simp
  · intro h
    rw [setup, if_pos h]
    rfl
  · intro r hr
    by_cases h : trillSetup 1 Device.BAR Mode.AUTO 0x21 ≠ 0
    · rw [setup, if_pos h] at hr
      rw [← Option.some.inj hr]
      simp [h]
    · rw [setup, if_neg h] at hr
      cases ht : intervalSamples sr g.printInterval with
      | none => rw [ht] at hr; exact absurd hr (by simp)
      | some t =>
        rw [ht] at hr
        rw [← Option.some.inj hr]
        simp [h]
  · intro h t ht
    refine ⟨_, by rw [setup, if_neg (by simp [h]), ht], rfl, by decide, by decide⟩

/-- C4, witness: a sensor setup that fails with -1 and one that succeeds, at the sample rate
44100. -/
theorem setup_fails_iff_sensor_setup_fails_witness :
    (∃ calls, setup (fun _ _ _ _ => -1) ⟨44100, 0⟩ initialGlobals
        = some (false, initialGlobals, calls)
        ∧ (∀ cb pr nm, Call.Bela_createAuxiliaryTask cb pr nm ∉ calls)
        ∧ (∀ nm, Call.Bela_scheduleAuxiliaryTask nm ∉ calls))
    ∧ (∃ calls, setup (fun _ _ _ _ => 0) ⟨44100, 0⟩ initialGlobals
        = some (true, { initialGlobals with printIntervalSamples := 4410 }, calls)
        ∧ calls = [Call.Bela_createAuxiliaryTask "loop" 50 "I2C-read",
                   Call.Bela_scheduleAuxiliaryTask "I2C-read"]
        ∧ calls.count (Call.Bela_createAuxiliaryTask "loop" 50 "I2C-read") = 1
        ∧ calls.count (Call.Bela_scheduleAuxiliaryTask "I2C-read") = 1) :=
  ⟨(setup_fails_iff_sensor_setup_fails (fun _ _ _ _ => -1) ⟨44100, 0⟩ initialGlobals).1
      (by decide),
   (setup_fails_iff_sensor_setup_fails (fun _ _ _ _ => 0) ⟨44100, 0⟩ initialGlobals).2.2.2
      rfl 4410 (by decide)⟩

/-! ## The claim about `loop` -/

/-- C8: for every sequence of results of `Bela_stopRequested()`, `loop` makes exactly one pair
(`readI2C`, then `usleep(12000)`) per leading `false`, whatever `readI2C` returns, and nothing at
or after the first `true`; it returns exactly when some observation is `true`; if the first
observation is `true`, `readI2C` is never called. -/
theorem loop_reads_while_not_stopped (readResult : ℕ → ℤ) (obs : List Bool) (i : ℕ) :
    (loop readResult obs i).calls
        = (List.range' i (obs.takeWhile fun b => !b).length).flatMap
            (fun j => [Call.readI2C (readResult j), Call.usleep 12000])
      ∧ ((loop readResult obs i).returned = true ↔ true ∈ obs)
      ∧ (obs.head? = some true → (loop readResult obs i).calls = []) := by
  induction obs generalizing i with
  | nil => simp [loop]
  | cons b rest ih =>
    cases b with
    | true => simp [loop]
    | false =>
      obtain ⟨h1, h2, -⟩ := ih (i + 1)
      refine ⟨?_, ?_, by simp⟩
      · simp only [loop, h1, List.takeWhile_cons, Bool.not_false, if_true, List.length_cons,
          List.range'_succ, List.flatMap_cons, gTaskSleepTime]
        rfl
      · simp only [loop, h2]
        simp

/-- C8, witness: two observations `false`, then `true`; the reads return 0 and -1. -/
theorem loop_reads_while_not_stopped_witness :
    (loop (fun j => if j = 0 then 0 else -1) [false, false, true, false] 0).calls
        = [Call.readI2C 0, Call.usleep 12000, Call.readI2C (-1), Call.usleep 12000]
      ∧ (loop (fun j => if j = 0 then 0 else -1) [true, false] 0).calls = [] :=
  ⟨(loop_reads_while_not_stopped (fun j => if j = 0 then 0 else -1)
      [false, false, true, false] 0).1.trans (by decide),
   (loop_reads_while_not_stopped (fun j => if j = 0 then 0 else -1) [true, false] 0).2.2 rfl⟩

/-! ## The text of a report -/

theorem join_cons (x : String) (l : List String) : String.join (x :: l) = x ++ String.join l := by
  apply String.ext
  simp [String.data_join, String.data_append]

theorem join_append (l1 l2 : List String) :
    String.join (l1 ++ l2) = String.join l1 ++ String.join l2 := by
  apply String.ext
  simp [String.data_join, String.data_append]

theorem append_empty (x : String) : x ++ "" = x := by
  apply String.ext
  simp [String.data_append]

theorem append_assoc (x y z : String) : x ++ y ++ z = x ++ (y ++ z) := by
  apply String.ext
  simp [String.data_append]

/-- The values printed for touch `i`: its location and, on a two-dimensional device, its
horizontal location. -/
theorem printTouches_eq (ts : Trill) :
    ∀ fuel i : ℕ, i + fuel = ts.numberOfTouches →
      printTouches ts fuel i
        = String.join (((List.range' i fuel).flatMap fun j =>
            if ts.is2D then [ts.touchLocation j, ts.touchHorizontalLocation j]
            else [ts.touchLocation j]).map fun v => printf_1_3f v ++ " ") := by
  intro fuel
  induction fuel with
  | zero => intro i _; rfl
  | succ fuel ih =>
    intro i hi
    rw [printTouches, if_pos (by omega), ih (i + 1) (by omega), List.range'_succ,
      List.flatMap_cons, List.map_append, join_append]
    congr 1
    have hnil : String.join [] = "" := rfl
    cases ts.is2D
    · simp [join_cons, append_empty, hnil]
    · simp [join_cons, append_empty, hnil]

theorem printChannels_eq (ts : Trill) :
    ∀ fuel i : ℕ, i + fuel = ts.getNumChannels →
      printChannels ts fuel i
        = String.join ((List.range' i fuel).map fun j => printf_1_3f (ts.rawData j) ++ " ") := by
  intro fuel
  induction fuel with
  | zero => intro i _; rfl
  | succ fuel ih =>
    intro i hi
    rw [printChannels, if_pos (by omega), ih (i + 1) (by omega), List.range'_succ,
      List.map_cons, join_cons]

theorem touchValues_length (ts : Trill) (l : List ℕ) :
    (l.flatMap fun j =>
        if ts.is2D then [ts.touchLocation j, ts.touchHorizontalLocation j]
        else [ts.touchLocation j]).length
      = if ts.is2D then 2 * l.length else l.length := by
  induction l with
  | nil => simp
  | cons a l ih =>
    rw [List.flatMap_cons, List.length_append, ih]
    cases ts.is2D <;> simp <;> omega

theorem digitChar_ne_newline (n : ℕ) : Nat.digitChar n ≠ '\n' := by
  by_cases h : n < 16
  · interval_cases n <;> decide
  · unfold Nat.digitChar
    repeat rw [if_neg (by omega)]
    decide

theorem toDigitsCore_no_newline :
    ∀ (fuel n : ℕ) (ds : List Char), '\n' ∉ ds → '\n' ∉ Nat.toDigitsCore 10 fuel n ds := by
  intro fuel
  induction fuel with
  | zero => intro n ds h; simpa [Nat.toDigitsCore] using h
  | succ fuel ih =>
    intro n ds h
    have hcons : '\n' ∉ Nat.digitChar (n % 10) :: ds := by
      rw [List.mem_cons, not_or]
      exact ⟨fun e => digitChar_ne_newline _ e.symm, h⟩
    rw [Nat.toDigitsCore]
    split
    · exact hcons
    · exact ih _ _ hcons

theorem repr_no_newline (n : ℕ) : '\n' ∉ (Nat.repr n).data := by
  unfold Nat.repr Nat.toDigits
  exact toDigitsCore_no_newline _ _ _ (by simp)

theorem printf_d_no_newline (x : ℤ) : '\n' ∉ (printf_d x).data := by
  unfold printf_d
  split
  · rw [String.data_append, List.mem_append, not_or]
    exact ⟨by decide, repr_no_newline _⟩
  · exact repr_no_newline _

theorem printf_1_3f_no_newline (x : CFloat) : '\n' ∉ (printf_1_3f x ++ " ").data := by
  unfold printf_1_3f pad3
  simp only [String.data_append, List.mem_append, not_or, List.mem_cons, List.mem_singleton]
  refine ⟨⟨⟨⟨?_, repr_no_newline _⟩, by decide⟩, ?_⟩, by decide⟩
  · split <;> decide
  · simp only [List.not_mem_nil, or_false, not_or]
    exact ⟨fun e => digitChar_ne_newline _ e.symm, fun e => digitChar_ne_newline _ e.symm,
      fun e => digitChar_ne_newline _ e.symm, not_false⟩

theorem join_no_newline (l : List String) (h : ∀ x ∈ l, '\n' ∉ x.data) :
    '\n' ∉ (String.join l).data := by
  rw [String.data_join]
  simp only [List.mem_flatten, List.mem_map, not_exists, not_and]
  rintro cs ⟨x, hx, rfl⟩
  exact h x hx

/-! ### What the conversion `%1.3f` prints -/

theorem digitChar_isDigit (k : ℕ) (hk : k < 10) :
    (Nat.digitChar k).isDigit = true ∧ (Nat.digitChar k).toNat - 48 = k := by
  interval_cases k <;> decide

/-- The digits that `Nat.toDigitsCore` puts in front of `ds`, given enough fuel: decimal
digits that denote `n`. -/
theorem toDigitsCore_digits :
    ∀ (fuel n : ℕ) (ds : List Char), n < fuel →
      ∃ D : List Char, Nat.toDigitsCore 10 fuel n ds = D ++ ds ∧ D ≠ []
        ∧ (∀ c ∈ D, c.isDigit = true)
        ∧ ∀ a : ℕ, D.foldl (fun a c => 10 * a + (c.toNat - 48)) a = a * 10 ^ D.length + n := by
  intro fuel
  induction fuel with
  | zero => intro n ds h; omega
  | succ fuel ih =>
    intro n ds h
    have hd := digitChar_isDigit (n % 10) (Nat.mod_lt n (by norm_num))
    rw [Nat.toDigitsCore]
    split
    · rename_i h0
      refine ⟨[Nat.digitChar (n % 10)], rfl, by simp, ?_, ?_⟩
      · intro c hc
        rw [List.mem_singleton] at hc
        rw [hc]
        exact hd.1
      · intro a
        simp only [List.foldl_cons, List.foldl_nil, List.length_singleton, pow_one]
        rw [hd.2]
        omega
    · rename_i h0
      obtain ⟨D, hD, -, hdig, hval⟩ := ih (n / 10) (Nat.digitChar (n % 10) :: ds) (by omega)
      refine ⟨D ++ [Nat.digitChar (n % 10)], by rw [hD]; simp, by simp, ?_, ?_⟩
      · intro c hc
        rcases List.mem_append.1 hc with hc | hc
        · exact hdig c hc
        · rw [List.mem_singleton] at hc
          rw [hc]
          exact hd.1
      · intro a
        rw [List.foldl_append, hval a]
        simp only [List.foldl_cons, List.foldl_nil, List.length_append, List.length_singleton]
        rw [hd.2, pow_succ]
        have := Nat.div_add_mod n 10
        nlinarith [this]

/-- The text of `Nat.repr n` is a non-empty string of decimal digits that denotes `n`. -/
theorem repr_digits (n : ℕ) :
    (Nat.repr n).data ≠ [] ∧ (∀ c ∈ (Nat.repr n).data, c.isDigit = true)
      ∧ decimalValue (Nat.repr n).data = n := by
  obtain ⟨D, hD, hne, hdig, hval⟩ := toDigitsCore_digits (n + 1) n [] (Nat.lt_succ_self n)
  have hdata : (Nat.repr n).data = D := by
    unfold Nat.repr Nat.toDigits
    rw [hD, List.append_nil]
    rfl
  rw [hdata]
  refine ⟨hne, hdig, ?_⟩
  unfold decimalValue
  rw [hval 0]
  omega

/-- The text of `pad3 n`, for `n < 1000`: three decimal digits that denote `n`. -/
theorem pad3_digits (n : ℕ) (hn : n < 1000) :
    (pad3 n).data.length = 3 ∧ (∀ c ∈ (pad3 n).data, c.isDigit = true)
      ∧ decimalValue (pad3 n).data = n := by
  have h1 := digitChar_isDigit (n / 100 % 10) (Nat.mod_lt _ (by norm_num))
  have h2 := digitChar_isDigit (n / 10 % 10) (Nat.mod_lt _ (by norm_num))
  have h3 := digitChar_isDigit (n % 10) (Nat.mod_lt _ (by norm_num))
  unfold pad3
  refine ⟨rfl, ?_, ?_⟩
  · intro c hc
    simp only [List.mem_cons, List.mem_singleton, List.not_mem_nil, or_false] at hc
    rcases hc with rfl | rfl | rfl
    · exact h1.1
    · exact h2.1
    · exact h3.1
  · unfold decimalValue
    simp only [List.foldl_cons, List.foldl_nil]
    rw [h1.2, h2.2, h3.2]
    omega

theorem toRat_abs_eq (x : CFloat) : |x.toRat| = (x.m.natAbs : ℚ) * 2 ^ x.e := by
  unfold CFloat.toRat
  rw [abs_mul, abs_of_pos (two_zpow_pos x.e), Nat.cast_natAbs, Int.cast_abs]

/-- The number of thousandths printed is the nearest one to the value. -/
theorem thousandths_near (x : CFloat) :
    |(thousandths x : ℚ) / 1000 - (|x.toRat|)| ≤ 1 / 2000 := by
  rw [toRat_abs_eq]
  unfold thousandths
  generalize x.m.natAbs = n
  by_cases he : 0 ≤ x.e
  · rw [if_pos he]
    obtain ⟨k, hk⟩ := Int.eq_ofNat_of_zero_le he
    rw [hk, Int.toNat_natCast, zpow_natCast]
    have : ((n * 1000 * 2 ^ k : ℕ) : ℚ) / 1000 - (n : ℚ) * 2 ^ k = 0 := by
      push_cast
      ring
    rw [this, abs_zero]
    norm_num
  · rw [if_neg he]
    obtain ⟨k, hk⟩ := Int.eq_ofNat_of_zero_le (show 0 ≤ -x.e by omega)
    have hxe : x.e = -(k : ℤ) := by omega
    rw [hk, Int.toNat_natCast, hxe, zpow_neg, zpow_natCast]
    have hpow : (0 : ℕ) < 2 ^ k := Nat.two_pow_pos k
    have hnear := divRoundHalfEven_near (n * 1000) (2 ^ k) hpow
    generalize divRoundHalfEven (n * 1000) (2 ^ k) = a at hnear ⊢
    have hq : |2 * ((a : ℚ) * 2 ^ k) - 2 * ((n : ℚ) * 1000)| ≤ 2 ^ k := by
      have := (Int.cast_le (R := ℚ)).2 hnear
      rw [Int.cast_abs] at this
      push_cast at this
      exact this
    have hpos : (0 : ℚ) < 2 ^ k := by positivity
    have hfac : (a : ℚ) / 1000 - (n : ℚ) * ((2 : ℚ) ^ k)⁻¹
        = (2 * ((a : ℚ) * 2 ^ k) - 2 * ((n : ℚ) * 1000)) * (1 / (2000 * 2 ^ k)) := by
      field_simp
      ring
    rw [hfac, abs_mul, abs_of_pos (by positivity : (0 : ℚ) < 1 / (2000 * 2 ^ k))]
    calc |2 * ((a : ℚ) * 2 ^ k) - 2 * ((n : ℚ) * 1000)| * (1 / (2000 * 2 ^ k))
        ≤ 2 ^ k * (1 / (2000 * 2 ^ k)) :=
          mul_le_mul_of_nonneg_right hq (by positivity)
      _ = 1 / 2000 := by
          field_simp
          ring

/-- The text of `%1.3f`: an optional minus sign, the decimal digits of the integral part, a
point and exactly three decimal digits; the number so written is the thousandth nearest to
the absolute value printed. -/
theorem printf_1_3f_digits (v : CFloat) :
    ∃ ip frac : List Char,
      (printf_1_3f v).data = (if v.toRat < 0 then ['-'] else []) ++ ip ++ '.' :: frac
      ∧ ip ≠ [] ∧ (∀ c ∈ ip, c.isDigit = true)
      ∧ frac.length = 3 ∧ (∀ c ∈ frac, c.isDigit = true)
      ∧ |((decimalValue ip : ℚ) + (decimalValue frac : ℚ) / 1000) - (|v.toRat|)| ≤ 1 / 2000 := by
  obtain ⟨hne, hdig, hval⟩ := repr_digits (thousandths v / 1000)
  obtain ⟨hlen, hfdig, hfval⟩ := pad3_digits (thousandths v % 1000) (Nat.mod_lt _ (by norm_num))
  refine ⟨(Nat.repr (thousandths v / 1000)).data, (pad3 (thousandths v % 1000)).data,
    ?_, hne, hdig, hlen, hfdig, ?_⟩
  · have hsign : (v.toRat < 0) ↔ (v.m < 0) := by
      rw [← not_le, ← not_le, toRat_nonneg_iff]
    unfold printf_1_3f
    simp only [String.data_append]
    by_cases hm : v.m < 0
    · rw [if_pos hm, if_pos (hsign.2 hm)]
      simp
    · rw [if_neg hm, if_neg (fun h => hm (hsign.1 h))]
      simp
  · rw [hval, hfval]
    have hsplit : ((thousandths v / 1000 : ℕ) : ℚ) + ((thousandths v % 1000 : ℕ) : ℚ) / 1000
        = (thousandths v : ℚ) / 1000 := by
      have h := Nat.div_add_mod (thousandths v) 1000
      have hq : (thousandths v : ℚ)
          = 1000 * ((thousandths v / 1000 : ℕ) : ℚ) + ((thousandths v % 1000 : ℕ) : ℚ) := by
        exact_mod_cast h.symm
      rw [hq]
      field_simp
      ring
    rw [hsplit]
    exact thousandths_near v

/-! ## The claim about the report line -/

/-- C5: every report is one line whose shape is fixed by the sensor mode.  In CENTROID mode
with `K` touches (`K` within `int`) it is `"Touches: K:"`, then for each touch `0..K-1` in order
the 3-decimal location and a space and, only on a two-dimensional device, the 3-decimal
horizontal location and a space (`K` values on a 1-D device, `2 * K` on a 2-D device), then a
newline.  In any other mode it is, with no prefix, one 3-decimal value and a space per channel
`0..numChannels-1`, then a newline.  The newline at the end is the only one.  Every value `v`
is printed as an optional minus sign (present exactly when `v < 0`), the decimal digits of
the integral part, a point and exactly three decimal digits, and the number so written is
within half a thousandth of `|v|`. -/
theorem report_line_shape (ts : Trill) :
    (ts.getMode = Mode.CENTROID → ts.numberOfTouches ≤ 2 ^ 31 - 1 →
      ∃ values : List CFloat,
        values = ((List.range ts.numberOfTouches).flatMap fun i =>
            if ts.is2D then [ts.touchLocation i, ts.touchHorizontalLocation i]
            else [ts.touchLocation i])
        ∧ values.length = (if ts.is2D then 2 * ts.numberOfTouches else ts.numberOfTouches)
        ∧ printReport ts
            = "Touches: " ++ Nat.repr ts.numberOfTouches ++ ":"
                ++ String.join (values.map fun v => printf_1_3f v ++ " ") ++ "\n")
    ∧ (ts.getMode ≠ Mode.CENTROID →
        printReport ts
          = String.join ((List.range ts.getNumChannels).map fun i =>
              printf_1_3f (ts.rawData i) ++ " ") ++ "\n")
    ∧ (∃ body : String, printReport ts = body ++ "\n" ∧ '\n' ∉ body.data)
    ∧ (∀ v : CFloat, ∃ ip frac : List Char,
        (printf_1_3f v).data = (if v.toRat < 0 then ['-'] else []) ++ ip ++ '.' :: frac
        ∧ ip ≠ [] ∧ (∀ c ∈ ip, c.isDigit = true)
        ∧ frac.length = 3 ∧ (∀ c ∈ frac, c.isDigit = true)
        ∧ |((decimalValue ip : ℚ) + (decimalValue frac : ℚ) / 1000) - (|v.toRat|)|
            ≤ 1 / 2000) := by
  refine ⟨?_, ?_, ?_, printf_1_3f_digits⟩
  · intro hmode hK
    refine ⟨_, rfl, ?_, ?_⟩
    · rw [touchValues_length, List.length_range]
    · have hd : printf_d (unsignedToInt ts.numberOfTouches) = Nat.repr ts.numberOfTouches := by
        have hu : unsignedToInt ts.numberOfTouches = (ts.numberOfTouches : ℤ) := by
          unfold unsignedToInt INT_MAX
          rw [if_pos (by omega)]
        rw [hu, printf_d, if_neg (by omega), Int.natAbs_ofNat]
      rw [printReport, if_pos hmode.symm, hd,
        printTouches_eq ts ts.numberOfTouches 0 (by omega), List.range_eq_range']
  · intro hmode
    rw [printReport, if_neg (fun h => hmode h.symm),
      printChannels_eq ts ts.getNumChannels 0 (by omega), List.range_eq_range']
  · unfold printReport
    refine ⟨_, rfl, ?_⟩
    split
    · rw [printTouches_eq ts ts.numberOfTouches 0 (by omega)]
      simp only [String.data_append, List.mem_append, not_or]
      refine ⟨⟨⟨by decide, printf_d_no_newline _⟩, by decide⟩, join_no_newline _ ?_⟩
      intro x hx
      obtain ⟨v, -, rfl⟩ := List.mem_map.1 hx
      exact printf_1_3f_no_newline v
    · rw [printChannels_eq ts ts.getNumChannels 0 (by omega)]
      refine join_no_newline _ ?_
      intro x hx
      obtain ⟨v, -, rfl⟩ := List.mem_map.1 hx
      exact printf_1_3f_no_newline _

/-- C5, witness: a one-dimensional bar in CENTROID mode with the two touches 0.25 and 0.5. -/
theorem report_line_shape_witness :
    printReport exampleBar = "Touches: 2:0.250 0.500 \n"
      ∧ ∃ ip frac : List Char,
          (printf_1_3f ⟨1, -2⟩).data
              = (if (⟨1, -2⟩ : CFloat).toRat < 0 then ['-'] else []) ++ ip ++ '.' :: frac
          ∧ ip ≠ [] ∧ (∀ c ∈ ip, c.isDigit = true)
          ∧ frac.length = 3 ∧ (∀ c ∈ frac, c.isDigit = true)
          ∧ |((decimalValue ip : ℚ) + (decimalValue frac : ℚ) / 1000)
                - (|(⟨1, -2⟩ : CFloat).toRat|)| ≤ 1 / 2000 := by
  refine ⟨?_, (report_line_shape exampleBar).2.2.2 ⟨1, -2⟩⟩
  obtain ⟨values, hv, -, htext⟩ := (report_line_shape exampleBar).1 rfl (by decide)
  rw [htext, hv]
  decide

/-! ## Evaluation checks of the embedding -/

theorem f32Mul_44100_tenth : f32Mul ⟨44100, 0⟩ printInterval = some ⟨9031680, -11⟩ := by decide

theorem printf_1_3f_checks :
    printf_1_3f ⟨-13421773, -27⟩ = "-0.100" ∧ printf_1_3f ⟨5, -1⟩ = "2.500"
      ∧ printf_1_3f ⟨5, -4⟩ = "0.312" ∧ printf_1_3f ⟨1, -11⟩ = "0.000"
      ∧ printf_1_3f ⟨3, 2⟩ = "12.000" := by decide

theorem render_two_five_check :
    (render exampleBar 2 5 0).map (fun p => (p.1, reportCount p.2, printedText p.2))
      = some (1, 2, "Touches: 2:0.250 0.500 \nTouches: 2:0.250 0.500 \n") := by decide

theorem printReport_checks :
    printReport exampleSquare = "Touches: 1:0.250 0.750 \n"
      ∧ printReport exampleRaw = "0.000 0.500 1.000 \n" := by decide

theorem decimalValue_checks :
    decimalValue "250".data = 250 ∧ decimalValue (Nat.repr 12).data = 12
      ∧ decimalValue (pad3 7).data = 7 := by decide

theorem render_overflow_check :
    render exampleBar (2 ^ 31) 1 (2 ^ 31 - 1) = none := by decide

end TrillCustomAddress
